import Mathlib

/-!
Verification of the session store of the FileShare signaling server
(`packages/signaling/src/session-store.ts`) and its read-only statistics
endpoint (`packages/signaling/src/index.ts`).

The JavaScript `Map<string, _>` objects are embedded as association lists
that keep insertion order, which is how a JS `Map` iterates.  `Map.set` on
an existing key updates the value in place; on a fresh key it appends.
`Date.now()` is passed in explicitly as a `now : Nat` parameter, and the
effect of `socket.close()` is recorded by appending the socket handle to a
`closedSockets` log in the store state.
-/

namespace FileShare

/-- Lookup in a JS `Map` modelled as an insertion-ordered association list. -/
def mapGet {α : Type} : List (String × α) → String → Option α
  | [], _ => none
  | p :: rest, k => if p.1 = k then some p.2 else mapGet rest k

/-- Embeds `Map.set`: update an existing key in place, otherwise append at the end. -/
def mapSet {α : Type} : List (String × α) → String → α → List (String × α)
  | [], k, v => [(k, v)]
  | p :: rest, k, v => if p.1 = k then (k, v) :: rest else p :: mapSet rest k v

/-- Embeds `Map.delete`: remove the entry with the given key. -/
def mapDelete {α : Type} : List (String × α) → String → List (String × α)
  | [], _ => []
  | p :: rest, k => if p.1 = k then mapDelete rest k else p :: mapDelete rest k

/-- A client connection record (`ClientConnection` in `session-store.ts`).
The WebSocket object is represented by an opaque numeric handle. -/
structure ClientConnection where
  clientId : String
  displayName : String
  socket : Nat
  joinedAt : Nat
deriving DecidableEq

/-- A session record (`Session` in `session-store.ts`). -/
structure Session where
  sessionId : String
  token : String
  createdAt : Nat
  expiresAt : Nat
  clients : List (String × ClientConnection)
deriving DecidableEq

/-- The mutable state of a `SessionStore` instance: the `sessions` map, the
`totalSessionsCreated` counter, and a log of sockets on which `close()` has
been called (the observable effect of `deleteSession`). -/
structure SessionStore where
  sessions : List (String × Session)
  totalSessionsCreated : Nat
  closedSockets : List Nat
deriving DecidableEq

/-- The state of a freshly constructed `SessionStore`. -/
def SessionStore.empty : SessionStore :=
  { sessions := [], totalSessionsCreated := 0, closedSockets := [] }

/-- Embeds `SessionStore.createSession`: build a session expiring one hour from
`now`, insert it with an empty client map, bump the counter, and return it.
The randomly generated `sessionId` and `token` are taken as parameters. -/
def createSession (st : SessionStore) (sessionId token : String) (now : Nat) :
    Session × SessionStore :=
  let session : Session :=
    { sessionId := sessionId
      token := token
      createdAt := now
      expiresAt := now + 60 * 60 * 1000
      clients := [] }
  (session,
    { st with
      sessions := mapSet st.sessions sessionId session
      totalSessionsCreated := st.totalSessionsCreated + 1 })

/-- Embeds `SessionStore.deleteSession`: close the socket of every member (errors are
swallowed) and remove the record from the sessions map. -/
def deleteSession (st : SessionStore) (sessionId : String) : SessionStore :=
  match mapGet st.sessions sessionId with
  | none => st
  | some session =>
    { st with
      closedSockets := st.closedSockets ++ session.clients.map (fun c => c.2.socket)
      sessions := mapDelete st.sessions sessionId }

/-- Embeds `SessionStore.getSession`: lookup by ID; if the session is past its
expiry (`Date.now() > expiresAt`) delete it and return `undefined`. -/
def getSession (st : SessionStore) (sessionId : String) (now : Nat) :
    Option Session × SessionStore :=
  match mapGet st.sessions sessionId with
  | none => (none, st)
  | some session =>
    if now > session.expiresAt then (none, deleteSession st sessionId)
    else (some session, st)

/-- Embeds `SessionStore.validateToken`: `===` comparison of the stored token with
the presented one; `false` when `getSession` yields `undefined`. -/
def validateToken (st : SessionStore) (sessionId token : String) (now : Nat) :
    Bool × SessionStore :=
  let r := getSession st sessionId now
  (match r.1 with
   | some session => session.token = token
   | none => false, r.2)

/-- Embeds `SessionStore.addClient`: fail when the session is absent or already
holds two clients, otherwise insert the new client record under its ID. -/
def addClient (st : SessionStore) (sessionId clientId displayName : String)
    (socket : Nat) (now : Nat) : Bool × SessionStore :=
  let r := getSession st sessionId now
  match r.1 with
  | none => (false, r.2)
  | some session =>
    if session.clients.length ≥ 2 then (false, r.2)
    else
      let client : ClientConnection :=
        { clientId := clientId, displayName := displayName
          socket := socket, joinedAt := now }
      (true,
        { r.2 with
          sessions := mapSet r.2.sessions sessionId
            { session with clients := mapSet session.clients clientId client } })

/-- Embeds `SessionStore.removeClient`: drop the client from the client map of the session
(no expiry check: the raw `sessions.get` is used) and delete the whole
session when no clients remain. -/
def removeClient (st : SessionStore) (sessionId clientId : String) : SessionStore :=
  match mapGet st.sessions sessionId with
  | none => st
  | some session =>
    let session' : Session := { session with clients := mapDelete session.clients clientId }
    let st' : SessionStore := { st with sessions := mapSet st.sessions sessionId session' }
    if session'.clients.length = 0 then deleteSession st' sessionId else st'

/-- Embeds `SessionStore.getClient`: member lookup through `getSession`. -/
def getClient (st : SessionStore) (sessionId clientId : String) (now : Nat) :
    Option ClientConnection × SessionStore :=
  let r := getSession st sessionId now
  (match r.1 with
   | some session => mapGet session.clients clientId
   | none => none, r.2)

/-- The loop inside `getOtherClient`: first entry whose key differs. -/
def findOtherClient : List (String × ClientConnection) → String → Option ClientConnection
  | [], _ => none
  | p :: rest, clientId => if p.1 = clientId then findOtherClient rest clientId else some p.2

/-- Embeds `SessionStore.getOtherClient`: the other member of a P2P session. -/
def getOtherClient (st : SessionStore) (sessionId clientId : String) (now : Nat) :
    Option ClientConnection × SessionStore :=
  let r := getSession st sessionId now
  (match r.1 with
   | some session => findOtherClient session.clients clientId
   | none => none, r.2)

/-- Embeds `SessionStore.getClients`: all members, in insertion order. -/
def getClients (st : SessionStore) (sessionId : String) (now : Nat) :
    List ClientConnection × SessionStore :=
  let r := getSession st sessionId now
  (match r.1 with
   | some session => session.clients.map Prod.snd
   | none => [], r.2)

/-- One iteration of the cleanup loop body: delete the visited entry when
`now > expiresAt`. -/
def sweepStep (now : Nat) (acc : SessionStore) (p : String × Session) : SessionStore :=
  if now > p.2.expiresAt then deleteSession acc p.1 else acc

/-- Embeds `SessionStore.cleanupExpiredSessions`: iterate over the sessions map,
deleting every session whose expiry is strictly in the past. -/
def cleanupExpiredSessions (st : SessionStore) (now : Nat) : SessionStore :=
  st.sessions.foldl (sweepStep now) st

/-- Embeds `SessionStore.getActiveSessionCount`. -/
def getActiveSessionCount (st : SessionStore) : Nat :=
  st.sessions.length

/-- Embeds `SessionStore.getActiveConnectionCount`: sum of member counts. -/
def getActiveConnectionCount (st : SessionStore) : Nat :=
  st.sessions.foldl (fun count p => count + p.2.clients.length) 0

/-- Embeds `SessionStore.getTotalSessionsCreated`. -/
def getTotalSessionsCreated (st : SessionStore) : Nat :=
  st.totalSessionsCreated

/-- The body returned by the `GET /stats` route in `index.ts`
(`uptime`/`timestamp` fields aside, which do not come from the store). -/
structure StatsResponse where
  activeSessions : Nat
  activeConnections : Nat
  totalSessionsCreated : Nat
deriving DecidableEq

/-- Projection of the store returned by the `GET /stats` handler. -/
def statsEndpoint (st : SessionStore) : StatsResponse :=
  { activeSessions := getActiveSessionCount st
    activeConnections := getActiveConnectionCount st
    totalSessionsCreated := getTotalSessionsCreated st }

/-- Every session in the store holds at most two clients. -/
def Bounded (st : SessionStore) : Prop :=
  ∀ p ∈ st.sessions, p.2.clients.length ≤ 2

/-! ### Concrete fixtures used as witnesses and counterexamples -/

/-- A connected client used in concrete scenarios. -/
def clientA : ClientConnection :=
  { clientId := "a", displayName := "Alice", socket := 1, joinedAt := 10 }

/-- A second connected client used in concrete scenarios. -/
def clientB : ClientConnection :=
  { clientId := "b", displayName := "Bob", socket := 2, joinedAt := 20 }

/-- A session holding one client, expiring at time 1000. -/
def oneSession : Session :=
  { sessionId := "s", token := "t", createdAt := 0, expiresAt := 1000
    clients := [("a", clientA)] }

/-- A store holding `oneSession`. -/
def oneStore : SessionStore :=
  { sessions := [("s", oneSession)], totalSessionsCreated := 1, closedSockets := [] }

/-- A session already holding two clients, expiring at time 1000. -/
def fullSession : Session :=
  { sessionId := "s", token := "t", createdAt := 0, expiresAt := 1000
    clients := [("a", clientA), ("b", clientB)] }

/-- A store holding `fullSession`. -/
def fullStore : SessionStore :=
  { sessions := [("s", fullSession)], totalSessionsCreated := 1, closedSockets := [] }

/-- An empty-membership session expiring exactly at time 100, for probing
the sweep boundary. -/
def borderSession : Session :=
  { sessionId := "s", token := "t", createdAt := 0, expiresAt := 100, clients := [] }

/-- A store holding `borderSession`. -/
def borderStore : SessionStore :=
  { sessions := [("s", borderSession)], totalSessionsCreated := 1, closedSockets := [] }

/-- History A: two sessions created at time 0, the first then deleted
explicitly; no session has ever expired. -/
def storeHistoryA : SessionStore :=
  deleteSession (createSession (createSession SessionStore.empty "a" "ta" 0).2 "b" "tb" 0).2 "a"

/-- History B: a session created at time 0, reaped by a sweep at time
3600001 (one session has expired), then a second session created. -/
def storeHistoryB : SessionStore :=
  (createSession (cleanupExpiredSessions (createSession SessionStore.empty "a" "ta" 0).2 3600001) "b" "tb" 3600001).2

/-! ### Basic facts about the map embedding -/

/-- Reading back through `mapSet`: the written key yields the new value,
every other key is unaffected. -/
theorem mapGet_mapSet {α : Type} (m : List (String × α)) (k k' : String) (v : α) :
    mapGet (mapSet m k v) k' = if k' = k then some v else mapGet m k' := by
  induction m with
  | nil =>
    by_cases h : k' = k
    · simp [mapGet, mapSet, h]
    · have h2 : ¬k = k' := fun e => h e.symm
      simp [mapGet, mapSet, h, h2]
  | cons p rest ih =>
    by_cases hp : p.1 = k
    · by_cases h : k' = k
      · rw [h] at ih ⊢
        simp [mapGet, mapSet, hp]
      · have h2 : ¬k = k' := fun e => h e.symm
        have h3 : ¬p.1 = k' := by rw [hp]; exact h2
        simp [mapGet, mapSet, hp, h, h2, h3]
    · by_cases h : k' = k
      · rw [h] at ih ⊢
        simp [mapGet, mapSet, hp, ih]
      · simp [mapGet, mapSet, hp, h, ih]

/-- Reading back through `mapDelete`: the deleted key is gone, every other
key is unaffected. -/
theorem mapGet_mapDelete {α : Type} (m : List (String × α)) (k k' : String) :
    mapGet (mapDelete m k) k' = if k' = k then none else mapGet m k' := by
  induction m with
  | nil => simp [mapGet, mapDelete]
  | cons p rest ih =>
    by_cases hp : p.1 = k
    · by_cases h : k' = k
      · rw [h] at ih ⊢
        simp [mapDelete, hp, ih]
      · have h2 : ¬k = k' := fun e => h e.symm
        have h3 : ¬p.1 = k' := by rw [hp]; exact h2
        simp [mapGet, mapDelete, hp, h, h2, h3, ih]
    · by_cases h : k' = k
      · rw [h] at ih ⊢
        simp [mapGet, mapDelete, hp, ih]
      · simp [mapGet, mapDelete, hp, h, ih]

/-- Every entry of `mapSet m k v` is an old entry or the new pair. -/
theorem mem_mapSet {α : Type} (m : List (String × α)) (k : String) (v : α)
    (q : String × α) : q ∈ mapSet m k v → q ∈ m ∨ q = (k, v) := by
  induction m with
  | nil => simp [mapSet]
  | cons p rest ih =>
    by_cases hp : p.1 = k <;> simp [mapSet, hp]
    · rintro (h | h)
      · exact Or.inr h
      · exact Or.inl (Or.inr h)
    · rintro (h | h)
      · exact Or.inl (Or.inl h)
      · rcases ih h with h' | h'
        · exact Or.inl (Or.inr h')
        · exact Or.inr h'

/-- Every entry of `mapDelete m k` is an entry of `m`. -/
theorem mem_mapDelete {α : Type} (m : List (String × α)) (k : String)
    (q : String × α) : q ∈ mapDelete m k → q ∈ m := by
  induction m with
  | nil => simp [mapDelete]
  | cons p rest ih =>
    by_cases hp : p.1 = k <;> simp [mapDelete, hp]
    · exact fun h => Or.inr (ih h)
    · rintro (h | h)
      · exact Or.inl h
      · exact Or.inr (ih h)

/-- Deletion does not lengthen the map. -/
theorem length_mapDelete_le {α : Type} (m : List (String × α)) (k : String) :
    (mapDelete m k).length ≤ m.length := by
  induction m with
  | nil => simp [mapDelete]
  | cons p rest ih =>
    by_cases hp : p.1 = k
    · simp [mapDelete, hp]
      omega
    · simp [mapDelete, hp]
      omega

/-- Writing with `mapSet` grows the map by at most one entry. -/
theorem length_mapSet_le {α : Type} (m : List (String × α)) (k : String) (v : α) :
    (mapSet m k v).length ≤ m.length + 1 := by
  induction m with
  | nil => simp [mapSet]
  | cons p rest ih =>
    by_cases hp : p.1 = k
    · simp [mapSet, hp]
    · simp [mapSet, hp]
      omega

/-- Overwriting a key that is already present keeps the length. -/
theorem length_mapSet_of_get {α : Type} (m : List (String × α)) (k : String)
    (v w : α) (h : mapGet m k = some w) : (mapSet m k v).length = m.length := by
  induction m with
  | nil => simp [mapGet] at h
  | cons p rest ih =>
    by_cases hp : p.1 = k
    · simp [mapSet, hp]
    · simp [mapGet, hp] at h
      simp [mapSet, hp, ih h]

/-- A successful lookup exhibits a member of the list. -/
theorem mem_of_mapGet {α : Type} (m : List (String × α)) (k : String) (v : α)
    (h : mapGet m k = some v) : (k, v) ∈ m := by
  induction m with
  | nil => simp [mapGet] at h
  | cons p rest ih =>
    obtain ⟨a, b⟩ := p
    by_cases hp : a = k
    · simp [mapGet, hp] at h
      simp [hp, h]
    · simp [mapGet, hp] at h
      exact List.mem_cons_of_mem _ (ih h)

/-- With pairwise-distinct keys, membership determines the lookup. -/
theorem mapGet_of_mem_nodup {α : Type} (m : List (String × α))
    (hnd : (m.map Prod.fst).Nodup) (k : String) (v : α)
    (h : (k, v) ∈ m) : mapGet m k = some v := by
  induction m with
  | nil => simp at h
  | cons p rest ih =>
    rw [List.map_cons, List.nodup_cons] at hnd
    rcases List.mem_cons.mp h with h | h
    · rw [← h]
      simp [mapGet]
    · have hk : ¬p.1 = k := by
        intro e
        exact hnd.1 (by rw [e]; exact List.mem_map_of_mem Prod.fst h)
      simp [mapGet, hk]
      exact ih hnd.2 h

/-! ### Facts about `deleteSession` -/

/-- After `deleteSession` the deleted ID resolves to nothing and all other
IDs resolve as before. -/
theorem sessions_deleteSession (st : SessionStore) (k k' : String) :
    mapGet (deleteSession st k).sessions k' =
      if k' = k then none else mapGet st.sessions k' := by
  unfold deleteSession
  cases h : mapGet st.sessions k with
  | none =>
    by_cases hk : k' = k
    · rw [hk]
      simp [h]
    · simp [hk]
  | some s =>
    simp [mapGet_mapDelete]

/-- Deleting a session never shrinks the closed-socket log. -/
theorem closed_deleteSession_mono (st : SessionStore) (k : String) (x : Nat)
    (hx : x ∈ st.closedSockets) : x ∈ (deleteSession st k).closedSockets := by
  unfold deleteSession
  cases h : mapGet st.sessions k with
  | none => exact hx
  | some s => exact List.mem_append_left _ hx

/-- Deleting an existing session closes exactly the sockets of its members, in
member order, after the previously closed ones. -/
theorem closed_deleteSession_eq (st : SessionStore) (k : String) (s : Session)
    (h : mapGet st.sessions k = some s) :
    (deleteSession st k).closedSockets =
      st.closedSockets ++ s.clients.map (fun c => c.2.socket) := by
  unfold deleteSession
  rw [h]

/-- Deleting a session does not touch the created-sessions counter. -/
theorem total_deleteSession (st : SessionStore) (k : String) :
    (deleteSession st k).totalSessionsCreated = st.totalSessionsCreated := by
  unfold deleteSession
  cases h : mapGet st.sessions k <;> rfl

/-! ### Facts about the expiry sweep -/

/-- A missing key stays missing throughout the sweep loop. -/
theorem sweep_none (now : Nat) (l : List (String × Session)) (acc : SessionStore)
    (k : String) (h : mapGet acc.sessions k = none) :
    mapGet (l.foldl (sweepStep now) acc).sessions k = none := by
  induction l generalizing acc with
  | nil => exact h
  | cons p rest ih =>
    rw [List.foldl_cons]
    apply ih
    unfold sweepStep
    by_cases hexp : now > p.2.expiresAt
    · rw [if_pos hexp, sessions_deleteSession]
      by_cases hk : k = p.1 <;> simp [hk, h]
    · rw [if_neg hexp]
      exact h

/-- The sweep loop never invents sessions: a surviving entry was already
present, with the same record, before the loop ran. -/
theorem sweep_some (now : Nat) (l : List (String × Session)) (acc : SessionStore)
    (k : String) (s : Session)
    (h : mapGet (l.foldl (sweepStep now) acc).sessions k = some s) :
    mapGet acc.sessions k = some s := by
  induction l generalizing acc with
  | nil => exact h
  | cons p rest ih =>
    rw [List.foldl_cons] at h
    have h' := ih _ h
    unfold sweepStep at h'
    by_cases hexp : now > p.2.expiresAt
    · rw [if_pos hexp, sessions_deleteSession] at h'
      by_cases hk : k = p.1
      · rw [if_pos hk] at h'
        exact absurd h' (by simp)
      · rwa [if_neg hk] at h'
    · rwa [if_neg hexp] at h'

/-- Any entry of the iterated list whose record is past expiry is gone once
the loop has run. -/
theorem sweep_expired (now : Nat) (l : List (String × Session)) (acc : SessionStore)
    (k : String) (s : Session) (hmem : (k, s) ∈ l) (hexp : now > s.expiresAt) :
    mapGet (l.foldl (sweepStep now) acc).sessions k = none := by
  induction l generalizing acc with
  | nil => simp at hmem
  | cons p rest ih =>
    rw [List.foldl_cons]
    rcases List.mem_cons.mp hmem with h | h
    · apply sweep_none
      rw [← h]
      unfold sweepStep
      simp [hexp, sessions_deleteSession]
    · exact ih _ h

/-- Keys that never occur in the iterated list are untouched by the loop. -/
theorem sweep_untouched (now : Nat) (l : List (String × Session))
    (acc : SessionStore) (k : String) (hk : k ∉ l.map Prod.fst) :
    mapGet (l.foldl (sweepStep now) acc).sessions k = mapGet acc.sessions k := by
  induction l generalizing acc with
  | nil => rfl
  | cons p rest ih =>
    rw [List.map_cons] at hk
    have hk1 : k ≠ p.1 := fun e => hk (by rw [e]; exact List.mem_cons_self _ _)
    have hk2 : k ∉ rest.map Prod.fst := fun e => hk (List.mem_cons_of_mem _ e)
    rw [List.foldl_cons, ih _ hk2]
    unfold sweepStep
    by_cases hexp : now > p.2.expiresAt
    · rw [if_pos hexp, sessions_deleteSession, if_neg hk1]
    · rw [if_neg hexp]

/-- An entry of the iterated list that is not yet expired survives the loop
with the binding of the accumulator intact, provided keys are pairwise distinct. -/
theorem sweep_keeps (now : Nat) (l : List (String × Session)) (acc : SessionStore)
    (k : String) (s : Session) (hnd : (l.map Prod.fst).Nodup)
    (hmem : (k, s) ∈ l) (hlive : ¬now > s.expiresAt) :
    mapGet (l.foldl (sweepStep now) acc).sessions k = mapGet acc.sessions k := by
  induction l generalizing acc with
  | nil => rfl
  | cons p rest ih =>
    rw [List.map_cons, List.nodup_cons] at hnd
    rw [List.foldl_cons]
    rcases List.mem_cons.mp hmem with h | h
    · have hk : k = p.1 := by rw [← h]
      have hrest : k ∉ rest.map Prod.fst := by rw [hk]; exact hnd.1
      rw [sweep_untouched now rest _ k hrest]
      unfold sweepStep
      rw [if_neg (by rw [← h]; exact hlive)]
    · have hk : ¬k = p.1 := by
        intro e
        exact hnd.1 (by rw [← e]; exact List.mem_map_of_mem Prod.fst h)
      rw [ih _ hnd.2 h]
      unfold sweepStep
      by_cases hexp : now > p.2.expiresAt
      · rw [if_pos hexp, sessions_deleteSession, if_neg hk]
      · rw [if_neg hexp]

/-- The sweep loop never shrinks the closed-socket log. -/
theorem sweep_closed_mono (now : Nat) (l : List (String × Session))
    (acc : SessionStore) (x : Nat) (hx : x ∈ acc.closedSockets) :
    x ∈ (l.foldl (sweepStep now) acc).closedSockets := by
  induction l generalizing acc with
  | nil => exact hx
  | cons p rest ih =>
    rw [List.foldl_cons]
    apply ih
    unfold sweepStep
    by_cases hexp : now > p.2.expiresAt
    · rw [if_pos hexp]
      exact closed_deleteSession_mono _ _ _ hx
    · rwa [if_neg hexp]

/-- Sockets of an expired entry get closed by the loop, provided the
accumulator still binds every listed key to its listed record. -/
theorem sweep_closes (now : Nat) (l : List (String × Session)) (acc : SessionStore)
    (k : String) (s : Session) (hnd : (l.map Prod.fst).Nodup)
    (hinv : ∀ p ∈ l, mapGet acc.sessions p.1 = some p.2)
    (hmem : (k, s) ∈ l) (hexp : now > s.expiresAt) :
    ∀ c ∈ s.clients, c.2.socket ∈ (l.foldl (sweepStep now) acc).closedSockets := by
  induction l generalizing acc with
  | nil => simp at hmem
  | cons p rest ih =>
    intro c hc
    rw [List.map_cons, List.nodup_cons] at hnd
    rw [List.foldl_cons]
    rcases List.mem_cons.mp hmem with h | h
    · apply sweep_closed_mono
      unfold sweepStep
      rw [if_pos (by rw [← h]; exact hexp)]
      have hget : mapGet acc.sessions p.1 = some p.2 :=
        hinv p (List.mem_cons_self _ _)
      rw [closed_deleteSession_eq acc p.1 p.2 hget]
      apply List.mem_append_right
      rw [← h]
      exact List.mem_map_of_mem _ hc
    · refine ih _ hnd.2 ?_ h c hc
      intro q hq
      have hqk : ¬q.1 = p.1 := by
        intro e
        exact hnd.1 (by rw [← e]; exact List.mem_map_of_mem Prod.fst hq)
      unfold sweepStep
      by_cases hexp' : now > p.2.expiresAt
      · rw [if_pos hexp', sessions_deleteSession, if_neg hqk]
        exact hinv q (List.mem_cons_of_mem _ hq)
      · rw [if_neg hexp']
        exact hinv q (List.mem_cons_of_mem _ hq)

/-- The sweep loop does not touch the created-sessions counter. -/
theorem sweep_total (now : Nat) (l : List (String × Session)) (acc : SessionStore) :
    (l.foldl (sweepStep now) acc).totalSessionsCreated = acc.totalSessionsCreated := by
  induction l generalizing acc with
  | nil => rfl
  | cons p rest ih =>
    rw [List.foldl_cons, ih]
    unfold sweepStep
    by_cases hexp : now > p.2.expiresAt
    · rw [if_pos hexp, total_deleteSession]
    · rw [if_neg hexp]

/-! ### Case characterizations of `getSession` -/

/-- Reading an unknown ID with `getSession`: `undefined`, store untouched. -/
theorem getSession_eq_notFound (st : SessionStore) (sid : String) (now : Nat)
    (h : mapGet st.sessions sid = none) : getSession st sid now = (none, st) := by
  simp [getSession, h]

/-- Reading an ID whose record is past expiry with `getSession`: `undefined`, record
lazily deleted. -/
theorem getSession_eq_expired (st : SessionStore) (sid : String) (now : Nat)
    (s : Session) (h : mapGet st.sessions sid = some s) (hexp : now > s.expiresAt) :
    getSession st sid now = (none, deleteSession st sid) := by
  simp [getSession, h, hexp]

/-- Reading a live record with `getSession`: the record, store untouched. -/
theorem getSession_eq_live (st : SessionStore) (sid : String) (now : Nat)
    (s : Session) (h : mapGet st.sessions sid = some s) (hexp : ¬now > s.expiresAt) :
    getSession st sid now = (some s, st) := by
  simp [getSession, h, hexp]

/-! ### The two-member bound -/

/-- Deleting a session preserves the two-member bound. -/
theorem bounded_deleteSession (st : SessionStore) (k : String)
    (hb : Bounded st) : Bounded (deleteSession st k) := by
  unfold deleteSession
  cases h : mapGet st.sessions k with
  | none => exact hb
  | some s =>
    intro q hq
    exact hb q (mem_mapDelete _ _ _ hq)

/-- Reading through `getSession` (which may lazily delete) preserves the two-member bound. -/
theorem bounded_getSession (st : SessionStore) (sid : String) (now : Nat)
    (hb : Bounded st) : Bounded (getSession st sid now).2 := by
  unfold getSession
  cases h : mapGet st.sessions sid with
  | none => exact hb
  | some s =>
    dsimp only
    by_cases hexp : now > s.expiresAt
    · rw [if_pos hexp]
      exact bounded_deleteSession st sid hb
    · rw [if_neg hexp]
      exact hb

/-- The expiry sweep preserves the two-member bound. -/
theorem bounded_sweepFold (now : Nat) (l : List (String × Session))
    (acc : SessionStore) (hb : Bounded acc) :
    Bounded (l.foldl (sweepStep now) acc) := by
  induction l generalizing acc with
  | nil => exact hb
  | cons p rest ih =>
    rw [List.foldl_cons]
    apply ih
    unfold sweepStep
    by_cases hexp : now > p.2.expiresAt
    · rw [if_pos hexp]
      exact bounded_deleteSession acc p.1 hb
    · rw [if_neg hexp]
      exact hb

/-! ### Claim theorems -/

/-- C8: every session handed out by `createSession` has `createdAt` equal to
the wall-clock creation time `now` (in milliseconds) and
`expiresAt = createdAt + 3600000`, the hard-coded one-hour default TTL. -/
theorem createSession_ttl (st : SessionStore) (sid tok : String) (now : Nat) :
    ((createSession st sid tok now).1).createdAt = now
    ∧ ((createSession st sid tok now).1).expiresAt
        = ((createSession st sid tok now).1).createdAt + 3600000 :=
  ⟨rfl, rfl⟩

/-- C4: `validateToken` returns `false` when the session ID is unknown or
the record is past expiry, and on a live registered session it returns
`true` exactly when the stored token equals the presented one. -/
theorem validateToken_spec (st : SessionStore) (sid tok : String) (now : Nat) :
    (mapGet st.sessions sid = none → (validateToken st sid tok now).1 = false)
    ∧ (∀ s, mapGet st.sessions sid = some s → now > s.expiresAt →
        (validateToken st sid tok now).1 = false)
    ∧ (∀ s, mapGet st.sessions sid = some s → ¬now > s.expiresAt →
        ((validateToken st sid tok now).1 = true ↔ s.token = tok)) := by
  refine ⟨?_, ?_, ?_⟩
  · intro h
    simp [validateToken, getSession_eq_notFound st sid now h]
  · intro s h hexp
    simp [validateToken, getSession_eq_expired st sid now s h hexp]
  · intro s h hexp
    simp [validateToken, getSession_eq_live st sid now s h hexp]

/-- Witness for C4: on a live concrete session the matching token
validates. -/
theorem validateToken_spec_witness : (validateToken oneStore "s" "t" 500).1 = true :=
  ((validateToken_spec oneStore "s" "t" 500).2.2 oneSession (by decide)
    (by decide)).mpr (by decide)

/-- C2: an attempt to add a member to a live session that already holds two
clients returns `false` and leaves the store (hence the membership of the
session) exactly unchanged; moreover the bound `|members| ≤ 2` is
preserved by every store operation. -/
theorem addClient_sessionFull :
    (∀ (st : SessionStore) (sid cid dn : String) (sock now : Nat) (s : Session),
        mapGet st.sessions sid = some s → ¬now > s.expiresAt →
        2 ≤ s.clients.length → addClient st sid cid dn sock now = (false, st))
    ∧ (∀ st sid cid dn sock now, Bounded st → Bounded (addClient st sid cid dn sock now).2)
    ∧ (∀ st sid tok now, Bounded st → Bounded (createSession st sid tok now).2)
    ∧ (∀ st sid now, Bounded st → Bounded (getSession st sid now).2)
    ∧ (∀ st sid tok now, Bounded st → Bounded (validateToken st sid tok now).2)
    ∧ (∀ st sid cid now, Bounded st → Bounded (getClient st sid cid now).2)
    ∧ (∀ st sid cid now, Bounded st → Bounded (getOtherClient st sid cid now).2)
    ∧ (∀ st sid now, Bounded st → Bounded (getClients st sid now).2)
    ∧ (∀ st sid cid, Bounded st → Bounded (removeClient st sid cid))
    ∧ (∀ st sid, Bounded st → Bounded (deleteSession st sid))
    ∧ (∀ st now, Bounded st → Bounded (cleanupExpiredSessions st now)) := by
  refine ⟨?_, ?_, ?_, ?_, ?_, ?_, ?_, ?_, ?_, ?_, ?_⟩
  · intro st sid cid dn sock now s h hexp hfull
    simp [addClient, getSession_eq_live st sid now s h hexp, hfull]
  · intro st sid cid dn sock now hb
    cases h : mapGet st.sessions sid with
    | none =>
      simp only [addClient, getSession_eq_notFound st sid now h]
      exact hb
    | some s =>
      by_cases hexp : now > s.expiresAt
      · simp only [addClient, getSession_eq_expired st sid now s h hexp]
        exact bounded_deleteSession st sid hb
      · by_cases hfull : s.clients.length ≥ 2
        · simp only [addClient, getSession_eq_live st sid now s h hexp, if_pos hfull]
          exact hb
        · simp only [addClient, getSession_eq_live st sid now s h hexp, if_neg hfull]
          intro q hq
          rcases mem_mapSet _ _ _ _ hq with hq' | hq'
          · exact hb q hq'
          · rw [hq']
            have h1 := length_mapSet_le s.clients cid
              { clientId := cid, displayName := dn, socket := sock, joinedAt := now }
            have h2 : s.clients.length ≤ 1 := by omega
            simp only
            omega
  · intro st sid tok now hb q hq
    simp only [createSession] at hq
    rcases mem_mapSet _ _ _ _ hq with hq' | hq'
    · exact hb q hq'
    · rw [hq']
      simp
  · intro st sid now hb
    exact bounded_getSession st sid now hb
  · intro st sid tok now hb
    exact bounded_getSession st sid now hb
  · intro st sid cid now hb
    exact bounded_getSession st sid now hb
  · intro st sid cid now hb
    exact bounded_getSession st sid now hb
  · intro st sid now hb
    exact bounded_getSession st sid now hb
  · intro st sid cid hb
    unfold removeClient
    cases h : mapGet st.sessions sid with
    | none => exact hb
    | some s =>
      dsimp only
      have hb' : Bounded { st with sessions := mapSet st.sessions sid { s with clients := mapDelete s.clients cid } } := by
        intro q hq
        rcases mem_mapSet _ _ _ _ hq with hq' | hq'
        · exact hb q hq'
        · rw [hq']
          have h1 := length_mapDelete_le s.clients cid
          have h2 := hb (sid, s) (mem_of_mapGet _ _ _ h)
          simp only at h2 ⊢
          omega
      by_cases hz : (mapDelete s.clients cid).length = 0
      · rw [if_pos hz]
        exact bounded_deleteSession _ sid hb'
      · rw [if_neg hz]
        exact hb'
  · intro st sid hb
    exact bounded_deleteSession st sid hb
  · intro st now hb
    exact bounded_sweepFold now st.sessions st hb

/-- Witness for C2: a third client bounces off the concrete two-member
session and the store is bit-for-bit unchanged. -/
theorem addClient_sessionFull_witness :
    addClient fullStore "s" "c" "Carol" 3 500 = (false, fullStore) :=
  addClient_sessionFull.1 fullStore "s" "c" "Carol" 3 500 fullSession
    (by decide) (by decide) (by decide)

/-- C3 counterexample: in a concrete live one-member session, adding the
already-present `client_id` "a" again does not fail — `addClient` returns
`true` and silently replaces the stored member record (new display name,
socket and join time), so no `Duplicate_client` rejection exists. -/
theorem addClient_duplicate_counterexample :
    (addClient oneStore "s" "a" "Alice2" 9 500).1 = true
    ∧ mapGet ((addClient oneStore "s" "a" "Alice2" 9 500).2).sessions "s"
        = some { sessionId := "s", token := "t", createdAt := 0, expiresAt := 1000, clients := [("a", { clientId := "a", displayName := "Alice2", socket := 9, joinedAt := 500 })] } := by
  decide

/-- C3 amended: `addClient` performs no duplicate-`client_id` check: on a
live session with spare room, adding a `client_id` that is already a member
succeeds and overwrites the record of that member in place, leaving the member
count (and the key set) unchanged — `client_id` stays unique within a
session only because the map overwrites on an existing key. -/
theorem addClient_duplicate_overwrites (st : SessionStore)
    (sid cid dn : String) (sock now : Nat) (s : Session) (c : ClientConnection)
    (hs : mapGet st.sessions sid = some s) (hlive : ¬now > s.expiresAt)
    (hroom : s.clients.length < 2) (hdup : mapGet s.clients cid = some c) :
    (addClient st sid cid dn sock now).1 = true
    ∧ mapGet ((addClient st sid cid dn sock now).2).sessions sid
        = some { s with clients := mapSet s.clients cid { clientId := cid, displayName := dn, socket := sock, joinedAt := now } }
    ∧ (mapSet s.clients cid { clientId := cid, displayName := dn, socket := sock, joinedAt := now }).length
        = s.clients.length := by
  have hfull : ¬s.clients.length ≥ 2 := by omega
  refine ⟨?_, ?_, ?_⟩
  · simp [addClient, getSession_eq_live st sid now s hs hlive, hfull]
  · simp [addClient, getSession_eq_live st sid now s hs hlive, hfull, mapGet_mapSet]
  · exact length_mapSet_of_get s.clients cid _ c hdup

/-- Witness for the amended C3 at the concrete one-member store. -/
theorem addClient_duplicate_overwrites_witness :
    (addClient oneStore "s" "a" "Alice2" 9 500).1 = true :=
  (addClient_duplicate_overwrites oneStore "s" "a" "Alice2" 9 500 oneSession
    clientA (by decide) (by decide) (by decide) (by decide)).1

/-- C5: `removeClient` on a registered session drops the member with the
given ID; when the membership thereby becomes empty the record is deleted
from the registry with all (zero) remaining member sockets closed, and
otherwise the pruned record stays registered with nothing closed; and
`deleteSession` itself closes the socket of every remaining member and removes
the record. -/
theorem removeClient_spec (st : SessionStore) (sid cid : String) (s : Session)
    (hs : mapGet st.sessions sid = some s) :
    ((mapDelete s.clients cid).length = 0 →
        mapGet (removeClient st sid cid).sessions sid = none
        ∧ (removeClient st sid cid).closedSockets
            = st.closedSockets ++ (mapDelete s.clients cid).map (fun c => c.2.socket))
    ∧ ((mapDelete s.clients cid).length ≠ 0 →
        mapGet (removeClient st sid cid).sessions sid
          = some { s with clients := mapDelete s.clients cid }
        ∧ (removeClient st sid cid).closedSockets = st.closedSockets)
    ∧ (mapGet (deleteSession st sid).sessions sid = none
        ∧ (deleteSession st sid).closedSockets
            = st.closedSockets ++ s.clients.map (fun c => c.2.socket)) := by
  have hget : mapGet (mapSet st.sessions sid { s with clients := mapDelete s.clients cid }) sid
      = some { s with clients := mapDelete s.clients cid } := by
    rw [mapGet_mapSet]
    simp
  refine ⟨?_, ?_, ?_, ?_⟩
  · intro hz
    unfold removeClient
    rw [hs]
    dsimp only
    rw [if_pos hz]
    constructor
    · rw [sessions_deleteSession]
      simp
    · rw [closed_deleteSession_eq _ sid _ hget]
  · intro hz
    unfold removeClient
    rw [hs]
    dsimp only
    rw [if_neg hz]
    exact ⟨hget, rfl⟩
  · rw [sessions_deleteSession]
    simp
  · exact closed_deleteSession_eq st sid s hs

/-- Witness for C5: removing the lone member of the concrete one-member
session deletes the whole record and closes nothing. -/
theorem removeClient_spec_witness :
    mapGet (removeClient oneStore "s" "a").sessions "s" = none
    ∧ (removeClient oneStore "s" "a").closedSockets
        = oneStore.closedSockets ++ (mapDelete oneSession.clients "a").map (fun c => c.2.socket) :=
  (removeClient_spec oneStore "s" "a" oneSession (by decide)).1 (by decide)

/-- C9: when the expiry of a session is strictly in the past, every read path
through `getSession` observes nothing and, as a side effect, deletes the
record from the registry and closes all of its member sockets —
`getSession`, `validateToken`, `addClient`, `getClient`, `getOtherClient`
and `getClients` each return their empty result paired with the lazily
swept store, before any sweeper tick. -/
theorem lazyExpiry_spec (st : SessionStore) (sid : String) (now : Nat)
    (s : Session) (hs : mapGet st.sessions sid = some s) (hexp : now > s.expiresAt) :
    getSession st sid now = (none, deleteSession st sid)
    ∧ mapGet (deleteSession st sid).sessions sid = none
    ∧ (∀ c ∈ s.clients, c.2.socket ∈ (deleteSession st sid).closedSockets)
    ∧ (∀ tok, validateToken st sid tok now = (false, deleteSession st sid))
    ∧ (∀ cid dn sock, addClient st sid cid dn sock now = (false, deleteSession st sid))
    ∧ (∀ cid, getClient st sid cid now = (none, deleteSession st sid))
    ∧ (∀ cid, getOtherClient st sid cid now = (none, deleteSession st sid))
    ∧ getClients st sid now = ([], deleteSession st sid) := by
  have hg := getSession_eq_expired st sid now s hs hexp
  refine ⟨hg, ?_, ?_, ?_, ?_, ?_, ?_, ?_⟩
  · rw [sessions_deleteSession]
    simp
  · intro c hc
    rw [closed_deleteSession_eq st sid s hs]
    exact List.mem_append_right _ (List.mem_map_of_mem _ hc)
  · intro tok
    simp [validateToken, hg]
  · intro cid dn sock
    simp [addClient, hg]
  · intro cid
    simp [getClient, hg]
  · intro cid
    simp [getOtherClient, hg]
  · simp [getClients, hg]

/-- Witness for C9: reading the concrete session one millisecond after its
expiry yields nothing and the lazily swept store. -/
theorem lazyExpiry_spec_witness :
    getSession fullStore "s" 1001 = (none, deleteSession fullStore "s") :=
  (lazyExpiry_spec fullStore "s" 1001 fullSession (by decide) (by decide)).1

/-- C1 counterexample: `createSession` registers its fresh record with an
empty membership, so immediately after a create the registry holds a
session with `|members| = 0`, violating the claimed lower bound
`1 ≤ |members|` at an observable point. -/
theorem registryInvariant_counterexample :
    mapGet ((createSession SessionStore.empty "s" "t" 0).2).sessions "s"
      = some (createSession SessionStore.empty "s" "t" 0).1
    ∧ ((createSession SessionStore.empty "s" "t" 0).1).clients.length = 0 := by
  decide

/-- C1 amended: the registry invariant the code actually maintains:
`createSession` registers its record with empty membership (`|members| = 0`,
the creator joins only later) and `now < expiresAt` at creation time; a
session observed through `getSession` satisfies `now ≤ expiresAt` (and the
store is untouched by the observation); and after a sweep at time `now`
every session still registered satisfies `now ≤ expiresAt`.  The upper
bound `|members| ≤ 2` is the subject of `addClient_sessionFull`. -/
theorem registryInvariant_amended :
    (∀ st sid tok now,
        mapGet ((createSession st sid tok now).2).sessions sid
          = some (createSession st sid tok now).1
        ∧ ((createSession st sid tok now).1).clients = []
        ∧ now < ((createSession st sid tok now).1).expiresAt)
    ∧ (∀ st sid now s st2, getSession st sid now = (some s, st2) →
        now ≤ s.expiresAt ∧ st2 = st)
    ∧ (∀ st now k s, mapGet (cleanupExpiredSessions st now).sessions k = some s →
        now ≤ s.expiresAt) := by
  refine ⟨?_, ?_, ?_⟩
  · intro st sid tok now
    refine ⟨?_, rfl, ?_⟩
    · simp [createSession, mapGet_mapSet]
    · show now < now + 60 * 60 * 1000
      omega
  · intro st sid now s st2 h
    cases hm : mapGet st.sessions sid with
    | none =>
      rw [getSession_eq_notFound st sid now hm] at h
      exact absurd h (by simp)
    | some s' =>
      by_cases hexp : now > s'.expiresAt
      · rw [getSession_eq_expired st sid now s' hm hexp] at h
        exact absurd h (by simp)
      · rw [getSession_eq_live st sid now s' hm hexp] at h
        have h1 : s' = s := by
          have := congrArg Prod.fst h
          simpa using this
        have h2 : st2 = st := by
          have := congrArg Prod.snd h
          simpa using this.symm
        refine ⟨?_, h2⟩
        rw [← h1]
        omega
  · intro st now k s h
    by_contra hexp
    have hexp' : now > s.expiresAt := by omega
    have h0 : mapGet st.sessions k = some s := by
      rw [cleanupExpiredSessions] at h
      exact sweep_some now st.sessions st k s h
    have hmem := mem_of_mapGet _ _ _ h0
    have h1 : mapGet (cleanupExpiredSessions st now).sessions k = none := by
      rw [cleanupExpiredSessions]
      exact sweep_expired now st.sessions st k s hmem hexp'
    rw [h1] at h
    exact absurd h (by simp)

/-- Witness for the amended C1: observing the concrete live session at time
0 shows `now ≤ expiresAt` and an untouched store. -/
theorem registryInvariant_amended_witness :
    (0 : Nat) ≤ oneSession.expiresAt ∧ oneStore = oneStore :=
  registryInvariant_amended.2.1 oneStore "s" 0 oneSession oneStore (by decide)

/-- C6 counterexample: a session whose `expiresAt` equals `now` is not
deleted by the sweep: `cleanupExpiredSessions` tests `now > expiresAt`
strictly, so the claimed deletion of sessions with `expires_at ≤ now` fails
at equality. -/
theorem sweep_boundary_counterexample :
    cleanupExpiredSessions borderStore 100 = borderStore := by
  decide

/-- C6 amended: one sweep at time `now` deletes exactly the sessions with
`expiresAt < now` (a record with `expiresAt = now` survives), closing every
member sockets of each deleted session, and leaves each session with
`expiresAt ≥ now` registered unchanged. -/
theorem sweep_boundary_amended (st : SessionStore) (now : Nat)
    (hnd : (st.sessions.map Prod.fst).Nodup) :
    ∀ k s, mapGet st.sessions k = some s →
      (s.expiresAt < now →
          mapGet (cleanupExpiredSessions st now).sessions k = none
          ∧ ∀ c ∈ s.clients, c.2.socket ∈ (cleanupExpiredSessions st now).closedSockets)
      ∧ (now ≤ s.expiresAt →
          mapGet (cleanupExpiredSessions st now).sessions k = some s) := by
  intro k s hks
  have hmem := mem_of_mapGet _ _ _ hks
  constructor
  · intro hexp
    have hexp' : now > s.expiresAt := hexp
    constructor
    · rw [cleanupExpiredSessions]
      exact sweep_expired now st.sessions st k s hmem hexp'
    · rw [cleanupExpiredSessions]
      exact sweep_closes now st.sessions st k s hnd
        (fun p hp => mapGet_of_mem_nodup st.sessions hnd p.1 p.2 hp) hmem hexp'
  · intro hlive
    rw [cleanupExpiredSessions]
    rw [sweep_keeps now st.sessions st k s hnd hmem (by omega)]
    exact hks

/-- Witness for the amended C6: the concrete boundary session with
`expiresAt = now = 100` survives the sweep unchanged. -/
theorem sweep_boundary_amended_witness :
    mapGet (cleanupExpiredSessions borderStore 100).sessions "s" = some borderSession :=
  ((sweep_boundary_amended borderStore 100 (by decide) "s" borderSession (by decide)).2 (by decide))

/-- C10 counterexample: history A (two sessions created, one deleted
explicitly, zero ever expired) and history B (two sessions created, one
reaped as expired by a sweep) are different stores, yet their statistics
responses are bit-identical — so the statistics resource cannot be
returning a cumulative count of expired sessions. -/
theorem stats_counterexample :
    statsEndpoint storeHistoryA = statsEndpoint storeHistoryB
    ∧ storeHistoryA ≠ storeHistoryB := by
  decide

/-- C10 amended: the statistics endpoint returns the two live counters plus
the cumulative total of sessions created since process start — a counter
that only `createSession` increments and that no other operation changes —
and no cumulative total of expired sessions (none is tracked). -/
theorem stats_amended :
    (∀ st, statsEndpoint st = { activeSessions := st.sessions.length, activeConnections := getActiveConnectionCount st, totalSessionsCreated := st.totalSessionsCreated })
    ∧ (∀ st sid tok now, ((createSession st sid tok now).2).totalSessionsCreated
        = st.totalSessionsCreated + 1)
    ∧ (∀ st sid now, ((getSession st sid now).2).totalSessionsCreated
        = st.totalSessionsCreated)
    ∧ (∀ st sid, (deleteSession st sid).totalSessionsCreated = st.totalSessionsCreated)
    ∧ (∀ st sid cid, (removeClient st sid cid).totalSessionsCreated
        = st.totalSessionsCreated)
    ∧ (∀ st now, (cleanupExpiredSessions st now).totalSessionsCreated
        = st.totalSessionsCreated)
    ∧ (∀ st sid cid dn sock now, ((addClient st sid cid dn sock now).2).totalSessionsCreated
        = st.totalSessionsCreated) := by
  refine ⟨fun st => rfl, fun st sid tok now => rfl, ?_, ?_, ?_, ?_, ?_⟩
  · intro st sid now
    cases hm : mapGet st.sessions sid with
    | none => rw [getSession_eq_notFound st sid now hm]
    | some s =>
      by_cases hexp : now > s.expiresAt
      · rw [getSession_eq_expired st sid now s hm hexp]
        exact total_deleteSession st sid
      · rw [getSession_eq_live st sid now s hm hexp]
  · intro st sid
    exact total_deleteSession st sid
  · intro st sid cid
    unfold removeClient
    cases hm : mapGet st.sessions sid with
    | none => rfl
    | some s =>
      dsimp only
      by_cases hz : (mapDelete s.clients cid).length = 0
      · rw [if_pos hz, total_deleteSession]
      · rw [if_neg hz]
  · intro st now
    rw [cleanupExpiredSessions]
    exact sweep_total now st.sessions st
  · intro st sid cid dn sock now
    cases hm : mapGet st.sessions sid with
    | none =>
      simp only [addClient, getSession_eq_notFound st sid now hm]
    | some s =>
      by_cases hexp : now > s.expiresAt
      · simp only [addClient, getSession_eq_expired st sid now s hm hexp]
        exact total_deleteSession st sid
      · by_cases hfull : s.clients.length ≥ 2
        · simp only [addClient, getSession_eq_live st sid now s hm hexp, if_pos hfull]
        · simp only [addClient, getSession_eq_live st sid now s hm hexp, if_neg hfull]

end FileShare
